import Mathlib

/-!
# Verification of the tf-tfe state-migration tool

A shallow embedding of the core of `svanharmelen/tf-tfe`, a Go program that
bulk-migrates Terraform state files into a Terraform Enterprise organization.
The repository holds two near-duplicate program variants (`main.go`, which also
rewrites the backend configuration through Bitbucket, and a simpler variant)
plus a Bitbucket protocol client.

The pure algorithmic core embedded here:

* `findTerraformBlock` (`main.go:302-328`): the single-pass scan that locates a
  `terraform { ... }` block by keyword match and brace counting.  Go iterates
  byte positions of the string; the embedding uses `List Char` with one list
  element per byte, which is faithful for ASCII configuration text (all
  concrete inputs considered are ASCII).  Go's `(-1, -1)` sentinel pair is
  rendered as `none`.
* `backendConfig` / `updateBackendContent` (`main.go:281-300, 330-339`): the
  backend-block template and the content splice performed by `updateBackend`
  (the Bitbucket read/write around it is modelled out).
* `unmarshalMeta` / `downloadStateMain` / `downloadStatePart`
  (`main.go:234-254` and the same function in the second variant): the
  metadata parse and required-field validation that follow the S3 download.
* `readTasks` / `runTask` / `processTask` / `processAll` / `mainModel`
  (`main.go:147-231`): record validation, the per-task stage sequence run by a
  worker, the per-task outcome, and main's exit behaviour.  The external
  services (S3, TFE, Bitbucket) are abstracted as stage functions.
-/

namespace TfTfe

/-- The keyword scanned for by `findTerraformBlock`: the Go literal
`"terraform"` (`main.go:308`). -/
def kw : List Char := "terraform".toList

/-- Whether a character is one of the two characters the scanner's `switch`
acts on (`main.go:313-320`). -/
def isBrace (c : Char) : Bool := c = '\x7b' || c = '\x7d'

/-- The scanner's depth update for one character: `openBr++` on `{`,
`openBr--` on `}`, unchanged otherwise (`main.go:313-320`). -/
def braceDelta (c : Char) : Int :=
  if c = '\x7b' then 1 else if c = '\x7d' then -1 else 0

/-- Net brace depth contributed by a piece of text. -/
def braceSum (l : List Char) : Int := (l.map braceDelta).sum

/-- The keyword occurs in `content` starting at byte position `p`
(`content[p:p+9] == "terraform"` in Go terms). -/
def occursAt (content : List Char) (p : Nat) : Prop :=
  (content.drop p).take 9 = kw

instance (content : List Char) (p : Nat) : Decidable (occursAt content p) := by
  unfold occursAt; infer_instance

/-- Number of positions at which the keyword occurs in `content`. -/
def occCount (content : List Char) : Nat :=
  ((List.range content.length).filter fun q => decide (occursAt content q)).length

/-- Brace depth accumulated by the scanner over positions `s, s+1, ..., i-1`
of `content` (the depth it holds just before processing position `i`, having
started counting at `s`). -/
def depthAfter (content : List Char) (s i : Nat) : Int :=
  braceSum ((content.drop s).take (i - s))

/-- A piece of text containing no brace characters. -/
def braceFree (l : List Char) : Prop := ∀ c ∈ l, isBrace c = false

instance (l : List Char) : Decidable (braceFree l) := by
  unfold braceFree; infer_instance

/-- The loop of `findTerraformBlock` (`main.go:306-325`), with the loop state
made explicit.  The first argument is the not-yet-scanned tail of the content
(`content.drop pos`), carried so the recursion is structural; `pos` is the
byte position of its head; `startPos` is Go's `startPos` with `-1` rendered as
`none`; `openBr` is the brace counter.

Per iteration, mirroring the source: while `startPos == -1`, a position is
skipped when `pos+9 < len(content) && content[pos:pos+9] != "terraform"`
(`main.go:307-311`; on the remaining tail `r :: rest` that guard reads
`9 ≤ rest.length ∧ (r :: rest).take 9 ≠ kw`); otherwise `startPos` is set to
`pos` and the same iteration falls through to the brace switch.  The switch
updates `openBr` on `{` or `}` and `continue`s on any other character
(`main.go:313-320`), and after a brace update the loop returns
`(startPos, pos+1)` when the counter is zero (`main.go:322-324`). -/
def findAux : List Char → Nat → Option Nat → Int → Option (Nat × Nat)
  | [], _, _, _ => none
  | r :: rest, pos, none, openBr =>
    if 9 ≤ rest.length ∧ (r :: rest).take 9 ≠ kw then
      findAux rest (pos + 1) none openBr
    else
      if isBrace r = true ∧ openBr + braceDelta r = 0 then some (pos, pos + 1)
      else findAux rest (pos + 1) (some pos) (openBr + braceDelta r)
  | r :: rest, pos, some s, openBr =>
    if isBrace r = true ∧ openBr + braceDelta r = 0 then some (s, pos + 1)
    else findAux rest (pos + 1) (some s) (openBr + braceDelta r)

/-- `findTerraformBlock` (`main.go:302-328`): `none` stands for the Go result
`(-1, -1)`; `some (start, end)` is the half-open span of the located block. -/
def findTerraformBlock (content : List Char) : Option (Nat × Nat) :=
  findAux content 0 none 0

/-- Position (relative to the start of the scanned tail) of the first
character at which the brace switch, entered with accumulated depth `acc`,
would both be a brace and bring the depth to zero — the point where the scan
phase of `findTerraformBlock` stops.  Proof-support reformulation of the scan
phase; related to `findAux` by `findAux_scan`. -/
def firstZero (acc : Int) : List Char → Option Nat
  | [] => none
  | c :: cs =>
    if isBrace c = true ∧ acc + braceDelta c = 0 then some 0
    else (firstZero (acc + braceDelta c) cs).map (· + 1)

/-- Segment of the `backendConfig` template literal (`main.go:330-339`) before
the hostname substitution. -/
def bcSeg1 : List Char :=
  "terraform \x7b\n  backend \"remote\" \x7b\n    hostname     = \"".toList

/-- Segment of the template between the hostname and the organization. -/
def bcSeg2 : List Char := "\"\n    organization = \"".toList

/-- Segment of the template between the organization and the workspace name. -/
def bcSeg3 : List Char := "\"\n\n    workspaces \x7b\n      name = \"".toList

/-- Closing segment of the template after the workspace name. -/
def bcSeg4 : List Char := "\"\n    \x7d\n  \x7d\n\x7d".toList

/-- `fmt.Sprintf(backendConfig, hostname, organization, workspace)`
(`main.go:292` with the template constant of `main.go:330-339`): the fixed
template with the three `%s` verbs replaced by the arguments. -/
def backendConfig (hostname org workspace : List Char) : List Char :=
  bcSeg1 ++ (hostname ++ (bcSeg2 ++ (org ++ (bcSeg3 ++ (workspace ++ bcSeg4)))))

/-- The pure content transformation performed by `updateBackend`
(`main.go:281-300`): locate the terraform block; on failure report the
`"No terraform configuration block found"` error (`none` here); otherwise
splice the instantiated template over the located span,
`content[0:start] + tfBlock + content[end:]` (`main.go:293`).  The Bitbucket
file read and write around this transformation are modelled out. -/
def updateBackendContent (hostname org workspace : List Char)
    (content : List Char) : Option (List Char) :=
  match findTerraformBlock content with
  | none => none
  | some (s, e) =>
    some (content.take s ++ backendConfig hostname org workspace ++ content.drop e)

/-- `Meta` (`main.go:60-65` and the corresponding struct of the second
variant): the metadata of a state.  Go's `int64` serial is rendered as `Int`
(no arithmetic is performed on it, so overflow is not at issue).  The two
variants differ only in the JSON struct tag of `TerraformVersion`:
`"terraform_version"` in `main.go`, `"terraform-version"` in the second
variant; the tag is passed as a parameter to `unmarshalMeta`. -/
structure Meta where
  Lineage : String
  Serial : Int
  TerraformVersion : String
deriving DecidableEq, Repr

/-- The zero value `&Meta{}` a task's metadata slot starts from
(`main.go:179`). -/
def defaultMeta : Meta := ⟨"", 0, ""⟩

/-- A primitive JSON value as far as the decoded `Meta` fields are concerned. -/
inductive JsonVal where
  | str (s : String)
  | num (n : Int)
deriving DecidableEq, Repr

/-- The downloaded state bytes, abstracted to what `json.Unmarshal` into
`Meta` distinguishes: either bytes that fail to decode as a JSON object
(`malformed`), or a JSON object given as its ordered list of top-level
key/value pairs. -/
inductive StateDoc where
  | malformed
  | obj (fields : List (String × JsonVal))
deriving DecidableEq, Repr

/-- Model of `json.Unmarshal(t.state.Bytes(), t.meta)` (`main.go:245`):
decoding fails on `malformed` bytes and leaves the struct untouched;
for an object, keys are decoded in order against the struct tags
(`"lineage"`, `"serial"`, and the variant's version tag), later duplicates
overwriting earlier ones, unmatched keys ignored, and fields whose key is
absent keeping their zero value. -/
def unmarshalMeta (versionTag : String) : StateDoc → Option Meta
  | StateDoc.malformed => none
  | StateDoc.obj fields =>
    some <| fields.foldl (fun m kv =>
      if kv.1 = "lineage" then
        match kv.2 with
        | JsonVal.str s => { m with Lineage := s }
        | JsonVal.num _ => m
      else if kv.1 = "serial" then
        match kv.2 with
        | JsonVal.str _ => m
        | JsonVal.num n => { m with Serial := n }
      else if kv.1 = versionTag then
        match kv.2 with
        | JsonVal.str s => { m with TerraformVersion := s }
        | JsonVal.num _ => m
      else m) defaultMeta

/-- The post-download logic of `downloadState` in `main.go:234-254`, given the
downloaded state document (the S3 transfer itself, `main.go:235-243`, is
assumed to have succeeded).  Mirrors the source exactly: when
`json.Unmarshal` fails the function `return nil`s — reporting success with
the metadata still at its zero value and never reaching the required-field
check (`main.go:245-247`); when it succeeds, an empty `Lineage` or
`TerraformVersion` is rejected (`main.go:249-251`). -/
def downloadStateMain (doc : StateDoc) : Except String Meta :=
  match unmarshalMeta "terraform_version" doc with
  | none => Except.ok defaultMeta
  | some m =>
    if m.Lineage = "" ∨ m.TerraformVersion = "" then
      Except.error "Unable to retrieve required fields from the state file"
    else Except.ok m

/-- `downloadState` of the second program variant: identical control flow,
but its `Meta` carries the struct tag `"terraform-version"`. -/
def downloadStatePart (doc : StateDoc) : Except String Meta :=
  match unmarshalMeta "terraform-version" doc with
  | none => Except.ok defaultMeta
  | some m =>
    if m.Lineage = "" ∨ m.TerraformVersion = "" then
      Except.error "Unable to retrieve required fields from the state file"
    else Except.ok m

/-- `Task` (`main.go:46-58`): the seven identity fields read from one CSV
record, plus the mutable metadata slot (the raw state-bytes buffer is not
carried here; the stage functions are abstracted over it). -/
structure Task where
  bucket : String
  key : String
  project : String
  repo : String
  branch : String
  configFile : String
  workspace : String
  meta : Meta
deriving DecidableEq, Repr

/-- The four stage methods of `Migrator` (`main.go:234-300`), abstracted over
the external services they call (S3, the TFE API, Bitbucket): each stage
either fails or returns its result.  `downloadState` returns the task with
its metadata slot populated (in Go it mutates `t.meta` in place);
`createWorkspace` returns a workspace handle of type `W` that `uploadState`
consumes; errors have type `E`. -/
structure Stages (W E : Type) where
  downloadState : Task → Except E Task
  createWorkspace : Task → Except E W
  uploadState : Task → W → Except E Unit
  updateBackend : Task → Except E Unit

/-- The per-task closure run by `worker` (`main.go:205-222`): the four stages
in order, stopping at the first error. -/
def runTask {W E : Type} (st : Stages W E) (t : Task) : Except E Unit :=
  match st.downloadState t with
  | Except.error e => Except.error e
  | Except.ok t1 =>
    match st.createWorkspace t1 with
    | Except.error e => Except.error e
    | Except.ok w =>
      match st.uploadState t1 w with
      | Except.error e => Except.error e
      | Except.ok _ => st.updateBackend t1

/-- The per-task outcome a worker reports (`main.go:223-227`): on error the
log line carries the task's workspace name and the underlying cause; on
success it carries the workspace name. -/
inductive Outcome (E : Type) where
  | failed (workspace : String) (err : E)
  | succeeded (workspace : String)
deriving DecidableEq

/-- One iteration of the worker loop for one dequeued task
(`main.go:204-230`): run the stage sequence and report the outcome. -/
def processTask {W E : Type} (st : Stages W E) (t : Task) : Outcome E :=
  match runTask st t with
  | Except.error e => Outcome.failed t.workspace e
  | Except.ok _ => Outcome.succeeded t.workspace

/-- The outcomes of a whole run: every queued task is dequeued by exactly one
worker and processed once; outcomes are listed in queue order (which worker
handled which task is abstracted away). -/
def processAll {W E : Type} (st : Stages W E) (ts : List Task) : List (Outcome E) :=
  ts.map (processTask st)

/-- The record-reading loop of `main` (`main.go:153-181`): every record is
turned into a task before any task is executed; a record with a field count
other than 7 aborts the whole run (`os.Exit(1)`, `main.go:163-169`), here
reported as `Except.error` carrying the offending record.  Field order
follows the `iota` constants of `main.go:26-32`; each task starts with the
zero metadata of `main.go:179`. -/
def readTasks : List (List String) → Except (List String) (List Task)
  | [] => Except.ok []
  | record :: rs =>
    if h : record.length = 7 then
      match readTasks rs with
      | Except.error bad => Except.error bad
      | Except.ok ts =>
        Except.ok
          ({ bucket := record.get ⟨0, by omega⟩
             key := record.get ⟨1, by omega⟩
             project := record.get ⟨2, by omega⟩
             repo := record.get ⟨3, by omega⟩
             branch := record.get ⟨4, by omega⟩
             configFile := record.get ⟨5, by omega⟩
             workspace := record.get ⟨6, by omega⟩
             meta := defaultMeta } :: ts)
    else Except.error record

/-- `main` after configuration (`main.go:147-201`): read and validate all
records first; a malformed record exits with status 1 before any task runs;
otherwise every task is processed and main falls off the end of the function,
exiting with status 0 (`main.go:199-201`).  The result is the pair of the
process exit status and the per-task outcomes. -/
def mainModel {W E : Type} (st : Stages W E) (records : List (List String)) :
    Nat × List (Outcome E) :=
  match readTasks records with
  | Except.error _ => (1, [])
  | Except.ok ts => (0, processAll st ts)

/-! ## Concrete fixtures used by the theorems below -/

/-- The input text of the spec's concrete rewrite scenario:
`"foo\nterraform {\n backend \"local\" {}\n}\nbar"`. -/
def c4text : List Char :=
  "foo\nterraform \x7b\n backend \"local\" \x7b\x7d\n\x7d\nbar".toList

/-- A state document carrying the key `"terraform_version"` (and not
`"terraform-version"`). -/
def c10doc : StateDoc :=
  StateDoc.obj
    [("lineage", JsonVal.str "L"), ("serial", JsonVal.num 1),
     ("terraform_version", JsonVal.str "0.11.8")]

/-- A concrete task whose identity fields are fixed except the target
workspace name. -/
def mkTask (ws : String) : Task :=
  { bucket := "b", key := "k", project := "p", repo := "r", branch := "br"
    configFile := "cf", workspace := ws, meta := defaultMeta }

/-- Concrete stages whose download step fails exactly on the task targeting
workspace `"w2"`. -/
def stC6 : Stages Unit String :=
  { downloadState := fun t =>
      if t.workspace = "w2" then Except.error "boom" else Except.ok t
    createWorkspace := fun _ => Except.ok ()
    uploadState := fun _ _ => Except.ok ()
    updateBackend := fun _ => Except.ok () }

/-- Concrete stages that always succeed. -/
def stC7 : Stages Unit String :=
  { downloadState := fun t => Except.ok t
    createWorkspace := fun _ => Except.ok ()
    uploadState := fun _ _ => Except.ok ()
    updateBackend := fun _ => Except.ok () }

/-- The backend template instantiated with brace-free parameters `h`, `o`,
`w`: the text produced by one rewrite of `"terraform {}"`. -/
def c8res : List Char := backendConfig ("h".toList) ("o".toList) ("w".toList)

/-! ## Supporting lemmas about the block scanner -/

lemma occursAt_length {content : List Char} {p : Nat} (h : occursAt content p) :
    p + 9 ≤ content.length := by
  have hlen : ((content.drop p).take 9).length = kw.length := congrArg List.length h
  rw [show kw.length = 9 from rfl, List.length_take, List.length_drop] at hlen
  have h9 : 9 ≤ content.length - p := min_eq_left_iff.mp hlen
  omega

lemma braceDelta_eq_zero {c : Char} (h : isBrace c = false) : braceDelta c = 0 := by
  unfold isBrace at h
  simp only [Bool.or_eq_false_iff, decide_eq_false_iff_not] at h
  unfold braceDelta
  rw [if_neg h.1, if_neg h.2]

lemma braceSum_nil : braceSum [] = 0 := rfl

lemma braceSum_cons (c : Char) (l : List Char) :
    braceSum (c :: l) = braceDelta c + braceSum l := by
  unfold braceSum
  simp

lemma braceSum_append (l1 l2 : List Char) :
    braceSum (l1 ++ l2) = braceSum l1 + braceSum l2 := by
  unfold braceSum
  simp

lemma braceSum_braceFree {l : List Char} (h : braceFree l) : braceSum l = 0 := by
  induction l with
  | nil => rfl
  | cons c cs ih =>
    rw [braceSum_cons, braceDelta_eq_zero (h c (by simp)),
      ih (fun x hx => h x (by simp [hx]))]
    simp

lemma firstZero_braceFree {l : List Char} (h : braceFree l) (acc : Int) :
    firstZero acc l = none := by
  induction l generalizing acc with
  | nil => rfl
  | cons c cs ih =>
    have hc : isBrace c = false := h c (by simp)
    show (if isBrace c = true ∧ acc + braceDelta c = 0 then some 0
      else (firstZero (acc + braceDelta c) cs).map (· + 1)) = none
    rw [if_neg (by simp [hc]), ih (fun x hx => h x (by simp [hx]))]
    rfl

lemma firstZero_append_none (A B : List Char) :
    ∀ acc : Int, firstZero acc A = none →
      firstZero acc (A ++ B) =
        (firstZero (acc + braceSum A) B).map (· + A.length) := by
  induction A with
  | nil =>
    intro acc _
    simp only [List.nil_append, braceSum_nil, add_zero, List.length_nil]
    cases firstZero acc B with
    | none => rfl
    | some k => simp
  | cons c rest ih =>
    intro acc h
    simp only [firstZero, List.cons_append, List.append_eq] at h ⊢
    by_cases hc : isBrace c = true ∧ acc + braceDelta c = 0
    · rw [if_pos hc] at h
      exact absurd h (by simp)
    · rw [if_neg hc] at h ⊢
      have h0 : firstZero (acc + braceDelta c) rest = none := by
        cases hfz : firstZero (acc + braceDelta c) rest with
        | none => rfl
        | some k => rw [hfz] at h; simp at h
      rw [ih _ h0, braceSum_cons, Option.map_map,
        show acc + (braceDelta c + braceSum rest) = acc + braceDelta c + braceSum rest
          from by ring]
      cases firstZero (acc + braceDelta c + braceSum rest) B with
      | none => rfl
      | some k =>
        simp only [Option.map_some', Option.some.injEq, Function.comp_apply,
          List.length_cons]
        omega

lemma firstZero_some_of (L : List Char) :
    ∀ (acc : Int) (k : Nat), k < L.length →
      isBrace (L.getD k ' ') = true →
      acc + braceSum (L.take (k + 1)) = 0 →
      (∀ j, j < k → isBrace (L.getD j ' ') = true →
        acc + braceSum (L.take (j + 1)) ≠ 0) →
      firstZero acc L = some k := by
  induction L with
  | nil => intro acc k hk _ _ _; simp at hk
  | cons c rest ih =>
    intro acc k hk hb hz hmid
    cases k with
    | zero =>
      simp only [List.getD_cons_zero] at hb
      rw [List.take_succ_cons, List.take_zero, braceSum_cons, braceSum_nil] at hz
      show (if isBrace c = true ∧ acc + braceDelta c = 0 then some 0
        else (firstZero (acc + braceDelta c) rest).map (· + 1)) = some 0
      rw [if_pos ⟨hb, by omega⟩]
    | succ n =>
      have hcond : ¬(isBrace c = true ∧ acc + braceDelta c = 0) := by
        rintro ⟨h1, h2⟩
        refine hmid 0 (Nat.succ_pos n) (by simpa using h1) ?_
        rw [List.take_succ_cons, List.take_zero, braceSum_cons, braceSum_nil]
        omega
      show (if isBrace c = true ∧ acc + braceDelta c = 0 then some 0
        else (firstZero (acc + braceDelta c) rest).map (· + 1)) = some (n + 1)
      rw [if_neg hcond]
      rw [ih (acc + braceDelta c) n (by simp at hk; omega)
        (by simpa using hb)
        (by rw [List.take_succ_cons, braceSum_cons] at hz; omega)
        (fun j hj hbj => by
          have hm := hmid (j + 1) (by omega) (by simpa using hbj)
          rw [List.take_succ_cons, braceSum_cons] at hm
          intro hcontra
          exact hm (by omega))]
      rfl

lemma findAux_scan (L : List Char) :
    ∀ (pos s : Nat) (b : Int),
      findAux L pos (some s) b =
        (firstZero b L).map (fun k => (s, pos + k + 1)) := by
  induction L with
  | nil => intro pos s b; rfl
  | cons c rest ih =>
    intro pos s b
    show (if isBrace c = true ∧ b + braceDelta c = 0 then some (s, pos + 1)
        else findAux rest (pos + 1) (some s) (b + braceDelta c)) =
      ((if isBrace c = true ∧ b + braceDelta c = 0 then some 0
        else (firstZero (b + braceDelta c) rest).map (· + 1)).map
          fun k => (s, pos + k + 1))
    by_cases h : isBrace c = true ∧ b + braceDelta c = 0
    · rw [if_pos h, if_pos h]
      rfl
    · rw [if_neg h, if_neg h, ih, Option.map_map]
      cases firstZero (b + braceDelta c) rest with
      | none => rfl
      | some k =>
        simp only [Option.map_some', Option.some.injEq, Function.comp_apply,
          Prod.mk.injEq, true_and]
        omega

lemma findAux_trigger (r : Char) (rest : List Char) (pos : Nat) (b : Int)
    (h : ¬(9 ≤ rest.length ∧ (r :: rest).take 9 ≠ kw)) :
    findAux (r :: rest) pos none b = findAux (r :: rest) pos (some pos) b := by
  show (if 9 ≤ rest.length ∧ (r :: rest).take 9 ≠ kw then
      findAux rest (pos + 1) none b
    else
      if isBrace r = true ∧ b + braceDelta r = 0 then some (pos, pos + 1)
      else findAux rest (pos + 1) (some pos) (b + braceDelta r)) = _
  rw [if_neg h]
  rfl

lemma findAux_skip (content : List Char) (p : Nat) :
    ∀ (n j : Nat), j + n = p →
      (∀ q, j ≤ q → q < p →
        10 ≤ (content.drop q).length ∧ (content.drop q).take 9 ≠ kw) →
      findAux (content.drop j) j none 0 = findAux (content.drop p) p none 0 := by
  intro n
  induction n with
  | zero =>
    intro j hj _
    have hjp : j = p := by omega
    rw [hjp]
  | succ m ih =>
    intro j hj hg
    have hjp : j < p := by omega
    obtain ⟨hlen, hne⟩ := hg j le_rfl hjp
    have hjlen : j < content.length := by
      rw [List.length_drop] at hlen; omega
    rw [List.drop_eq_getElem_cons hjlen] at hne hlen ⊢
    have hguard : 9 ≤ (content.drop (j + 1)).length ∧
        (content[j] :: content.drop (j + 1)).take 9 ≠ kw := by
      refine ⟨?_, hne⟩
      simp only [List.length_cons] at hlen
      omega
    rw [show findAux (content[j] :: content.drop (j + 1)) j none 0 =
        findAux (content.drop (j + 1)) (j + 1) none 0 from by
      show (if 9 ≤ (content.drop (j + 1)).length ∧
          (content[j] :: content.drop (j + 1)).take 9 ≠ kw then
          findAux (content.drop (j + 1)) (j + 1) none 0
        else _) = _
      rw [if_pos hguard]]
    exact ih (j + 1) (by omega) (fun q hq1 hq2 => hg q (by omega) hq2)

lemma findAux_scan_fst (L : List Char) (pos s0 : Nat) (b : Int) (s e : Nat)
    (h : findAux L pos (some s0) b = some (s, e)) : s = s0 := by
  rw [findAux_scan] at h
  cases hfz : firstZero b L with
  | none => rw [hfz] at h; simp at h
  | some k =>
    rw [hfz] at h
    simp only [Option.map_some', Option.some.injEq, Prod.mk.injEq] at h
    exact h.1.symm

lemma findAux_none_inv (L : List Char) :
    ∀ (pos s e : Nat), findAux L pos none 0 = some (s, e) →
      ∃ k, s = pos + k ∧ k < L.length ∧
        ∀ q, q < k → 10 ≤ (L.drop q).length ∧ (L.drop q).take 9 ≠ kw := by
  induction L with
  | nil => intro pos s e h; simp [findAux] at h
  | cons c rest ih =>
    intro pos s e h
    by_cases hg : 9 ≤ rest.length ∧ (c :: rest).take 9 ≠ kw
    · rw [show findAux (c :: rest) pos none 0 =
          findAux rest (pos + 1) none 0 from by
        show (if 9 ≤ rest.length ∧ (c :: rest).take 9 ≠ kw then
            findAux rest (pos + 1) none 0 else _) = _
        rw [if_pos hg]] at h
      obtain ⟨k, hk1, hk2, hk3⟩ := ih (pos + 1) s e h
      refine ⟨k + 1, by omega, by simp only [List.length_cons]; omega, ?_⟩
      intro q hq
      cases q with
      | zero =>
        refine ⟨?_, by simpa using hg.2⟩
        simp only [List.drop_zero, List.length_cons]
        omega
      | succ n =>
        have := hk3 n (by omega)
        simpa using this
    · rw [show findAux (c :: rest) pos none 0 =
          (if isBrace c = true ∧ 0 + braceDelta c = 0 then some (pos, pos + 1)
            else findAux rest (pos + 1) (some pos) (0 + braceDelta c)) from by
        show (if 9 ≤ rest.length ∧ (c :: rest).take 9 ≠ kw then
            findAux rest (pos + 1) none 0 else _) = _
        rw [if_neg hg]] at h
      have hs : s = pos := by
        by_cases hz : isBrace c = true ∧ 0 + braceDelta c = 0
        · rw [if_pos hz] at h
          simp only [Option.some.injEq, Prod.mk.injEq] at h
          exact h.1.symm
        · rw [if_neg hz] at h
          exact findAux_scan_fst rest (pos + 1) pos _ s e h
      exact ⟨0, by omega, by simp, fun q hq => absurd hq (Nat.not_lt_zero q)⟩

lemma findTerraformBlock_inv {content : List Char} {s e : Nat}
    (h : findTerraformBlock content = some (s, e)) :
    s < content.length ∧
      ∀ q, q < s → q + 10 ≤ content.length ∧ ¬ occursAt content q := by
  obtain ⟨k, hk1, hk2, hk3⟩ := findAux_none_inv content 0 s e h
  have hs : s = k := by omega
  subst hs
  refine ⟨hk2, ?_⟩
  intro q hq
  obtain ⟨h1, h2⟩ := hk3 q hq
  rw [List.length_drop] at h1
  exact ⟨by omega, h2⟩

lemma locate_pos {content : List Char} {p k : Nat}
    (hguard : ∀ q, q < p →
      10 ≤ (content.drop q).length ∧ (content.drop q).take 9 ≠ kw)
    (hocc : occursAt content p)
    (hfz : firstZero 0 (content.drop p) = some k) :
    findTerraformBlock content = some (p, p + k + 1) := by
  have hp9 : p + 9 ≤ content.length := occursAt_length hocc
  have hp : p < content.length := by omega
  have h0 : findAux content 0 none 0 = findAux (content.drop p) p none 0 := by
    have hsk := findAux_skip content p p 0 (by omega) (fun q _ hq => hguard q hq)
    simpa using hsk
  unfold findTerraformBlock
  rw [h0, List.drop_eq_getElem_cons hp]
  have hocc9 : (content[p] :: content.drop (p + 1)).take 9 = kw := by
    rw [← List.drop_eq_getElem_cons hp]
    exact hocc
  rw [findAux_trigger _ _ _ _ (fun hcon => hcon.2 hocc9)]
  rw [findAux_scan, ← List.drop_eq_getElem_cons hp, hfz]
  rfl

lemma firstZero_append_some (A B : List Char) :
    ∀ (acc : Int) (k : Nat), firstZero acc A = some k →
      firstZero acc (A ++ B) = some k := by
  induction A with
  | nil => intro acc k h; simp [firstZero] at h
  | cons c rest ih =>
    intro acc k h
    simp only [firstZero, List.cons_append, List.append_eq] at h ⊢
    by_cases hc : isBrace c = true ∧ acc + braceDelta c = 0
    · rw [if_pos hc] at h ⊢
      exact h
    · rw [if_neg hc] at h ⊢
      cases hfz : firstZero (acc + braceDelta c) rest with
      | none => rw [hfz] at h; simp at h
      | some k2 =>
        rw [hfz] at h
        rw [ih _ _ hfz]
        exact h

lemma getD_drop (l : List Char) (p j : Nat) (d : Char) :
    (l.drop p).getD j d = l.getD (p + j) d := by
  rw [List.getD_eq_getElem?_getD, List.getD_eq_getElem?_getD, List.getElem?_drop]

/-! ## Facts about the backend template -/

lemma bcSeg1_length : bcSeg1.length = 53 := by decide

lemma bcSeg1_take_kw : bcSeg1.take 9 = kw := by decide

lemma bcSeg1_no_border : ∀ j, j < 9 → 0 < j → bcSeg1.take (9 - j) ≠ kw.drop j := by
  decide

lemma backendConfig_take_kw (hostname org workspace : List Char) :
    (backendConfig hostname org workspace).take 9 = kw := by
  unfold backendConfig
  rw [List.take_append_of_le_length (by rw [bcSeg1_length]; omega)]
  exact bcSeg1_take_kw

lemma backendConfig_take_seg1 (hostname org workspace : List Char) {m : Nat}
    (hm : m ≤ 9) :
    (backendConfig hostname org workspace).take m = bcSeg1.take m := by
  unfold backendConfig
  exact List.take_append_of_le_length (by rw [bcSeg1_length]; omega)

lemma backendConfig_length_ge (hostname org workspace : List Char) :
    10 ≤ (backendConfig hostname org workspace).length := by
  unfold backendConfig
  simp only [List.length_append]
  have h1 := bcSeg1_length
  omega

lemma firstZero_backendConfig (hostname org workspace : List Char)
    (hh : braceFree hostname) (ho : braceFree org) (hw : braceFree workspace) :
    firstZero 0 (backendConfig hostname org workspace) =
      some ((backendConfig hostname org workspace).length - 1) := by
  unfold backendConfig
  rw [firstZero_append_none bcSeg1 _ 0 (by decide)]
  rw [show (0 : Int) + braceSum bcSeg1 = 2 from by decide]
  rw [firstZero_append_none hostname _ 2 (firstZero_braceFree hh 2),
    braceSum_braceFree hh, add_zero]
  rw [firstZero_append_none bcSeg2 _ 2 (by decide)]
  rw [show (2 : Int) + braceSum bcSeg2 = 2 from by decide]
  rw [firstZero_append_none org _ 2 (firstZero_braceFree ho 2),
    braceSum_braceFree ho, add_zero]
  rw [firstZero_append_none bcSeg3 _ 2 (by decide)]
  rw [show (2 : Int) + braceSum bcSeg3 = 3 from by decide]
  rw [firstZero_append_none workspace _ 3 (firstZero_braceFree hw 3),
    braceSum_braceFree hw, add_zero]
  rw [show firstZero 3 bcSeg4 = some 12 from by decide]
  simp only [Option.map_some', List.length_append]
  have h4 : bcSeg4.length = 13 := by decide
  congr 1
  omega

/-! ## Claim theorems -/

/-- C1: evaluation of the code at the claim's failing input.  The claim says
that state bytes which fail to parse leave the metadata at its defaults and
are then deterministically rejected by the required-field validation, so the
task never reaches workspace creation.  In the code, however, the
`json.Unmarshal` error branch `return nil`s (`main.go:245-247`): the parse
failure is reported as success with the all-default metadata, the validation
is skipped, and the worker proceeds to `createWorkspace` — in contrast with a
successfully parsed document whose `lineage` is empty, which the validation
does reject. -/
theorem C1_code_bug_eval :
    downloadStateMain StateDoc.malformed = Except.ok defaultMeta ∧
    defaultMeta.Lineage = "" ∧
    defaultMeta.TerraformVersion = "" ∧
    downloadStateMain (StateDoc.obj [("lineage", JsonVal.str "L")]) =
      Except.error "Unable to retrieve required fields from the state file" := by
  refine ⟨rfl, rfl, rfl, ?_⟩
  rfl

/-- C2: evaluation of the code at the claim's failing input.  The claim says
the locator returns the not-found sentinel whenever the keyword never occurs
in the text.  On the text `"{}"`, in which `"terraform"` occurs at no
position, `findTerraformBlock` nevertheless returns the span `(0, 2)`: the
guard `pos+9 < len(content)` (`main.go:308`) is false throughout the last 9
bytes of the text, so the keyword comparison is skipped there and `startPos`
is set unconditionally. -/
theorem C2_code_bug_eval :
    occCount ("\x7b\x7d".toList) = 0 ∧
    findTerraformBlock ("\x7b\x7d".toList) = some (0, 2) := by
  exact ⟨rfl, rfl⟩

/-- C4: the concrete scenario.  On
`"foo\nterraform {\n backend \"local\" {}\n}\nbar"` the locator's span is
`(4, 37)` — from the `t` of `terraform` through the position one past its
matching closing brace — and rewriting with hostname `h`, organization `o`,
workspace `w` yields exactly `"foo\n"`, the instantiated template, then
`"\nbar"`. -/
theorem C4_concrete_scenario :
    findTerraformBlock c4text = some (4, 37) ∧
    updateBackendContent ("h".toList) ("o".toList) ("w".toList) c4text =
      some ("foo\n".toList ++
        backendConfig ("h".toList) ("o".toList) ("w".toList) ++
        "\nbar".toList) := by
  exact ⟨rfl, rfl⟩

/-- C10: the two variants' metadata parsing differs.  On a state document
with the key `"terraform_version"` (and no `"terraform-version"`), the
`main.go` variant (backend-rewriting, tag `terraform_version`) parses a
non-empty tool version, while the second variant (tag `terraform-version`)
leaves the version empty — and consequently its download stage rejects the
same document that the first variant accepts. -/
theorem C10_variant_metadata_differs :
    unmarshalMeta "terraform_version" c10doc =
      some { Lineage := "L", Serial := 1, TerraformVersion := "0.11.8" } ∧
    unmarshalMeta "terraform-version" c10doc =
      some { Lineage := "L", Serial := 1, TerraformVersion := "" } ∧
    downloadStateMain c10doc =
      Except.ok { Lineage := "L", Serial := 1, TerraformVersion := "0.11.8" } ∧
    downloadStatePart c10doc =
      Except.error "Unable to retrieve required fields from the state file" := by
  exact ⟨rfl, rfl, rfl, rfl⟩

/-- C3: for any text containing exactly one occurrence of the keyword
`"terraform"` (at position `p`), balanced in the sense that some later
position `q` holds the `}` that brings the brace depth counted from `p` back
to zero — with no earlier brace doing so — `findTerraformBlock` returns the
half-open span from the keyword's first character to the position immediately
after that `}`, and the spanned content is brace-balanced. -/
theorem C3_unique_balanced_block (content : List Char) (p q : Nat)
    (hocc : occursAt content p)
    (huniq : ∀ r, r < content.length → occursAt content r → r = p)
    (hpq : p < q) (hq : q < content.length)
    (hclose : content.getD q ' ' = '\x7d')
    (hzero : depthAfter content p (q + 1) = 0)
    (hfirst : ∀ i, i < q → p ≤ i → isBrace (content.getD i ' ') = true →
      depthAfter content p (i + 1) ≠ 0) :
    findTerraformBlock content = some (p, q + 1) ∧
      braceSum ((content.drop p).take (q + 1 - p)) = 0 := by
  have hp9 : p + 9 ≤ content.length := occursAt_length hocc
  have hguard : ∀ r, r < p →
      10 ≤ (content.drop r).length ∧ (content.drop r).take 9 ≠ kw := by
    intro r hr
    refine ⟨by rw [List.length_drop]; omega, ?_⟩
    intro hkw
    have hocc2 : occursAt content r := hkw
    have hr2 := huniq r (by have := occursAt_length hocc2; omega) hocc2
    omega
  have hfz : firstZero 0 (content.drop p) = some (q - p) := by
    apply firstZero_some_of
    · rw [List.length_drop]; omega
    · rw [getD_drop, show p + (q - p) = q from by omega, hclose]
      rfl
    · unfold depthAfter at hzero
      rw [show q - p + 1 = q + 1 - p from by omega]
      omega
    · intro j hj hbj
      rw [getD_drop] at hbj
      have hm := hfirst (p + j) (by omega) (by omega) hbj
      unfold depthAfter at hm
      rw [show p + j + 1 - p = j + 1 from by omega] at hm
      intro hcon
      exact hm (by omega)
  have hloc := locate_pos hguard hocc hfz
  rw [show p + (q - p) + 1 = q + 1 from by omega] at hloc
  refine ⟨hloc, ?_⟩
  unfold depthAfter at hzero
  omega

/-- Witness for C3 at the concrete text `"terraform {}"`, whose unique
keyword occurrence is at 0 and whose closing brace is at 11. -/
theorem C3_witness :
    findTerraformBlock ("terraform \x7b\x7d".toList) = some (0, 12) ∧
      braceSum ((("terraform \x7b\x7d".toList).drop 0).take 12) = 0 :=
  C3_unique_balanced_block ("terraform \x7b\x7d".toList) 0 11 (by decide)
    (by decide) (by decide) (by decide) (by decide) (by decide) (by decide)

/-- C9: the rewrite is exactly the splice of the template over the located
span — every byte before `start` and from `end` onward is preserved verbatim,
and the bytes in between are exactly the instantiated template. -/
theorem C9_frame_preservation (hostname org workspace text : List Char)
    (s e : Nat) (h : findTerraformBlock text = some (s, e)) :
    updateBackendContent hostname org workspace text =
      some (text.take s ++ backendConfig hostname org workspace ++
        text.drop e) ∧
    (text.take s ++ backendConfig hostname org workspace ++
      text.drop e).take s = text.take s ∧
    (text.take s ++ backendConfig hostname org workspace ++ text.drop e).drop
      (s + (backendConfig hostname org workspace).length) = text.drop e ∧
    ((text.take s ++ backendConfig hostname org workspace ++
      text.drop e).drop s).take (backendConfig hostname org workspace).length =
      backendConfig hostname org workspace := by
  obtain ⟨hslen, _⟩ := findTerraformBlock_inv h
  have hprelen : (text.take s).length = s := by
    rw [List.length_take, min_eq_left (le_of_lt hslen)]
  refine ⟨?_, ?_, ?_, ?_⟩
  · unfold updateBackendContent
    rw [h]
  · rw [List.append_assoc]
    exact List.take_left' hprelen
  · refine List.drop_left' ?_
    rw [List.length_append, hprelen]
  · rw [List.append_assoc, List.drop_left' hprelen]
    exact List.take_left _ _

/-- Witness for C9 at the concrete text `"a terraform {} b"`, whose located
span is `(2, 14)`. -/
theorem C9_witness :
    (("a terraform \x7b\x7d b".toList).take 2 ++
      backendConfig ("h".toList) ("o".toList) ("w".toList) ++
      ("a terraform \x7b\x7d b".toList).drop 14).take 2 =
      ("a terraform \x7b\x7d b".toList).take 2 :=
  (C9_frame_preservation ("h".toList) ("o".toList) ("w".toList)
    ("a terraform \x7b\x7d b".toList) 2 14 (by rfl)).2.1

/-- C6: a stage error in one task is caught at the worker level.  The failing
task's outcome carries its workspace name and the underlying cause (the
`log.Printf` of `main.go:224`); the run still produces one outcome for every
other queued task; a failing stage determines the task's result regardless of
the stages that would have run after it (they are aborted); and main still
exits with status 0 after such a run. -/
theorem C6_worker_error_containment {W E : Type} (st : Stages W E)
    (ts1 ts2 : List Task) (t : Task) (e : E)
    (herr : runTask st t = Except.error e) :
    processTask st t = Outcome.failed t.workspace e ∧
    processAll st (ts1 ++ t :: ts2) =
      processAll st ts1 ++ Outcome.failed t.workspace e :: processAll st ts2 ∧
    (processAll st (ts1 ++ t :: ts2)).length = ts1.length + 1 + ts2.length ∧
    (∀ e0, st.downloadState t = Except.error e0 →
      ∀ st2 : Stages W E, st2.downloadState = st.downloadState →
        runTask st2 t = Except.error e0) ∧
    (∀ t1 e0, st.downloadState t = Except.ok t1 →
      st.createWorkspace t1 = Except.error e0 →
      ∀ st2 : Stages W E, st2.downloadState = st.downloadState →
        st2.createWorkspace = st.createWorkspace →
        runTask st2 t = Except.error e0) ∧
    (∀ t1 w e0, st.downloadState t = Except.ok t1 →
      st.createWorkspace t1 = Except.ok w →
      st.uploadState t1 w = Except.error e0 →
      ∀ st2 : Stages W E, st2.downloadState = st.downloadState →
        st2.createWorkspace = st.createWorkspace →
        st2.uploadState = st.uploadState →
        runTask st2 t = Except.error e0) ∧
    (∀ records, readTasks records = Except.ok (ts1 ++ t :: ts2) →
      mainModel st records = (0, processAll st (ts1 ++ t :: ts2))) := by
  have hout : processTask st t = Outcome.failed t.workspace e := by
    unfold processTask
    rw [herr]
  refine ⟨hout, ?_, ?_, ?_, ?_, ?_, ?_⟩
  · unfold processAll
    rw [List.map_append, List.map_cons, hout]
  · unfold processAll
    rw [List.length_map, List.length_append, List.length_cons]
    omega
  · intro e0 hd st2 h2
    unfold runTask
    rw [h2, hd]
  · intro t1 e0 hd hc st2 h2 h3
    simp only [runTask, h2, h3, hd, hc]
  · intro t1 w e0 hd hc hu st2 h2 h3 h4
    simp only [runTask, h2, h3, h4, hd, hc, hu]
  · intro records hr
    unfold mainModel
    rw [hr]

/-- Witness for C6: in a batch of three tasks whose middle task's download
fails, the outcomes are success, the logged failure with its workspace name
and cause, then success. -/
theorem C6_witness :
    processAll stC6 [mkTask "w1", mkTask "w2", mkTask "w3"] =
      [Outcome.succeeded "w1", Outcome.failed "w2" "boom",
        Outcome.succeeded "w3"] :=
  (C6_worker_error_containment stC6 [mkTask "w1"] [mkTask "w3"] (mkTask "w2")
    "boom" (by rfl)).2.1.trans (by rfl)

/-- C7: all tasks are materialized from the input records before any task is
enqueued or executed, so one malformed record (wrong field count) anywhere in
the input makes the whole run abort with exit status 1 and zero per-task
outcomes — no migration side effect happens for any record. -/
theorem C7_fail_fast_on_malformed_record {W E : Type} (st : Stages W E)
    (records : List (List String)) (r : List String)
    (hmem : r ∈ records) (hlen : r.length ≠ 7) :
    (∃ bad, bad ∈ records ∧ bad.length ≠ 7 ∧
      readTasks records = Except.error bad) ∧
    mainModel st records = (1, []) := by
  have key : ∀ rs : List (List String), r ∈ rs →
      ∃ bad, bad ∈ rs ∧ bad.length ≠ 7 ∧
        readTasks rs = Except.error bad := by
    intro rs
    induction rs with
    | nil => intro hm; cases hm
    | cons rec rest ih =>
      intro hm
      by_cases h7 : rec.length = 7
      · have hm2 : r ∈ rest := by
          cases hm with
          | head => exact absurd h7 hlen
          | tail _ htl => exact htl
        obtain ⟨bad, hb1, hb2, hb3⟩ := ih hm2
        refine ⟨bad, List.mem_cons_of_mem rec hb1, hb2, ?_⟩
        unfold readTasks
        rw [dif_pos h7, hb3]
      · refine ⟨rec, List.mem_cons_self rec rest, h7, ?_⟩
        unfold readTasks
        rw [dif_neg h7]
  refine ⟨key records hmem, ?_⟩
  obtain ⟨bad, _, _, hb3⟩ := key records hmem
  unfold mainModel
  rw [hb3]

/-- Witness for C7: a well-formed first record followed by a one-field record
yields exit status 1 and no outcomes. -/
theorem C7_witness :
    mainModel stC7 [["b", "k", "p", "r", "br", "cf", "w1"], ["x"]] =
      (1, []) :=
  (C7_fail_fast_on_malformed_record stC7
    [["b", "k", "p", "r", "br", "cf", "w1"], ["x"]] ["x"]
    (by decide) (by decide)).2

set_option maxRecDepth 8000 in
/-- C8 counterexample: idempotence as stated fails when a spliced parameter
contains braces.  With hostname `"}}"`, rewriting `"terraform {}"` once
succeeds, but rewriting the result again with the same parameters changes it
further: the second scan's depth counter returns to zero inside the spliced
hostname, so only a prefix of the block is replaced. -/
theorem C8_counterexample :
    ((updateBackendContent ("\x7d\x7d".toList) ("o".toList) ("w".toList)
        ("terraform \x7b\x7d".toList)).bind
      (updateBackendContent ("\x7d\x7d".toList) ("o".toList) ("w".toList))) ≠
      updateBackendContent ("\x7d\x7d".toList) ("o".toList) ("w".toList)
        ("terraform \x7b\x7d".toList) := by
  decide

/-- C8 (amended): for every text in which a terraform block is located, and
for hostname, organization and workspace-name parameters containing no brace
characters, rewriting the already-rewritten text with the same parameters
yields it back unchanged: the second application locates exactly the
previously spliced block and replaces it with itself. -/
theorem C8_idempotent_braceFree (hostname org workspace text res : List Char)
    (hh : braceFree hostname) (ho : braceFree org) (hw : braceFree workspace)
    (h : updateBackendContent hostname org workspace text = some res) :
    updateBackendContent hostname org workspace res = some res := by
  unfold updateBackendContent at h
  cases hfind : findTerraformBlock text with
  | none =>
    rw [hfind] at h
    exact Option.noConfusion h
  | some se =>
    obtain ⟨s, e⟩ := se
    rw [hfind] at h
    obtain rfl : text.take s ++ backendConfig hostname org workspace ++
        text.drop e = res := by injection h
    obtain ⟨hslen, hbefore⟩ := findTerraformBlock_inv hfind
    have hprelen : (text.take s).length = s := by
      rw [List.length_take, min_eq_left (le_of_lt hslen)]
    have hblk10 : 10 ≤ (backendConfig hostname org workspace).length :=
      backendConfig_length_ge hostname org workspace
    have hdrop_s :
        (text.take s ++ backendConfig hostname org workspace ++
          text.drop e).drop s =
          backendConfig hostname org workspace ++ text.drop e := by
      rw [List.append_assoc]
      exact List.drop_left' hprelen
    have hocc : occursAt
        (text.take s ++ backendConfig hostname org workspace ++ text.drop e)
        s := by
      unfold occursAt
      rw [hdrop_s, List.take_append_of_le_length (by omega)]
      exact backendConfig_take_kw hostname org workspace
    have hfz : firstZero 0
        ((text.take s ++ backendConfig hostname org workspace ++
          text.drop e).drop s) =
        some ((backendConfig hostname org workspace).length - 1) := by
      rw [hdrop_s]
      exact firstZero_append_some _ _ _ _
        (firstZero_backendConfig hostname org workspace hh ho hw)
    have hlen_new : (text.take s ++ backendConfig hostname org workspace ++
        text.drop e).length =
        s + (backendConfig hostname org workspace).length +
          (text.drop e).length := by
      rw [List.length_append, List.length_append, hprelen]
    have hguard : ∀ q, q < s →
        10 ≤ ((text.take s ++ backendConfig hostname org workspace ++
          text.drop e).drop q).length ∧
        ((text.take s ++ backendConfig hostname org workspace ++
          text.drop e).drop q).take 9 ≠ kw := by
      intro q hq
      have hqs : q ≤ (text.take s).length := by rw [hprelen]; omega
      have hdq_len : ((text.take s).drop q).length = s - q := by
        rw [List.length_drop, hprelen]
      have hdropq : (text.take s ++ backendConfig hostname org workspace ++
          text.drop e).drop q =
          (text.take s).drop q ++
            (backendConfig hostname org workspace ++ text.drop e) := by
        rw [List.append_assoc]
        exact List.drop_append_of_le_length hqs
      refine ⟨by rw [List.length_drop, hlen_new]; omega, ?_⟩
      by_cases hbig : 9 ≤ s - q
      · rw [hdropq, List.take_append_of_le_length (by rw [hdq_len]; omega),
          List.drop_take, List.take_take, min_eq_left hbig]
        exact (hbefore q hq).2
      · rw [hdropq]
        intro hcon
        rw [List.take_append_eq_append_take,
          List.take_of_length_le (by rw [hdq_len]; omega), hdq_len,
          List.take_append_of_le_length (by omega)] at hcon
        have hdropkw := congrArg (List.drop (s - q)) hcon
        rw [List.drop_left' hdq_len] at hdropkw
        rw [backendConfig_take_seg1 hostname org workspace (by omega)]
          at hdropkw
        exact bcSeg1_no_border (s - q) (by omega) (by omega) hdropkw
    have hloc := locate_pos hguard hocc hfz
    rw [show s + ((backendConfig hostname org workspace).length - 1) + 1 =
        s + (backendConfig hostname org workspace).length from by omega]
      at hloc
    have htake_s : (text.take s ++ backendConfig hostname org workspace ++
        text.drop e).take s = text.take s := by
      rw [List.append_assoc]
      exact List.take_left' hprelen
    have hdrop_end : (text.take s ++ backendConfig hostname org workspace ++
        text.drop e).drop
          (s + (backendConfig hostname org workspace).length) =
        text.drop e := by
      refine List.drop_left' ?_
      rw [List.length_append, hprelen]
    have hstep : updateBackendContent hostname org workspace
        (text.take s ++ backendConfig hostname org workspace ++ text.drop e) =
        some ((text.take s ++ backendConfig hostname org workspace ++
            text.drop e).take s ++
          backendConfig hostname org workspace ++
          (text.take s ++ backendConfig hostname org workspace ++
            text.drop e).drop
            (s + (backendConfig hostname org workspace).length)) := by
      unfold updateBackendContent
      rw [hloc]
    rw [hstep, htake_s, hdrop_end]

/-- Witness for C8: applying the rewrite to the block produced by rewriting
`"terraform {}"` with brace-free parameters `h`, `o`, `w` returns that block
unchanged. -/
theorem C8_witness :
    updateBackendContent ("h".toList) ("o".toList) ("w".toList) c8res =
      some c8res :=
  C8_idempotent_braceFree ("h".toList) ("o".toList) ("w".toList)
    ("terraform \x7b\x7d".toList) c8res (by decide) (by decide) (by decide)
    (by decide)

end TfTfe
